import Mathlib

/-!
Verification of the cnc-gcode-tools font-creator geometry/layout core.

The JavaScript source (font-creator controller) is shallowly embedded over
exact rationals.  JavaScript numbers are modelled by `ℚ`; the transcendental
library calls `Math.sqrt` / `Math.atan2` / `Math.PI`, which have no exact
rational counterpart, are handled in two ways, each noted at its use site:

* Douglas-Peucker only ever *compares* square roots of non-negative numbers
  (`dist > maxDist`, `dist > tolerance` with `tolerance ≥ 0`); since
  `Real.sqrt` is strictly monotone on nonnegatives, those comparisons are
  embedded as comparisons of the squared quantities.

* The arc detector and circle fitter use the numeric results themselves
  (radius, angles), so they are parameterised by a `NumOps` structure
  bundling `sqrt`, `atan2` and `pi`; theorems quantify over all such
  structures, and concrete instances make the definitions executable.
-/

namespace FontCreator

/-- A 2-D point, field-for-field the `{x, y}` objects of the source. -/
structure Pt where
  x : ℚ
  y : ℚ
deriving DecidableEq, Repr

instance : Inhabited Pt := ⟨⟨0, 0⟩⟩

/-- Cross product of two vectors, used to characterise collinearity. -/
def cross (a b : Pt) : ℚ := a.x * b.y - a.y * b.x

/-!
### StrokeSimplifier (`douglasPeucker`, source part_000 lines 480-522)

`calculateDistanceToLine` returns the Euclidean distance from `point` to the
infinite line through `lineStart`/`lineEnd` (or to `lineStart` when the two
coincide).  The algorithm only compares these distances with each other and
with the tolerance, so we embed the *squared* distance; every comparison
site squares the other operand correspondingly.
-/

/-- Squared version of `calculateDistanceToLine` (lines 512-522):
`mag === 0` is `magSq = 0`; otherwise the squared distance from `point` to
`closest = lineStart + u • d`. -/
def calculateDistanceToLineSq (point lineStart lineEnd : Pt) : ℚ :=
  let dx := lineEnd.x - lineStart.x
  let dy := lineEnd.y - lineStart.y
  let magSq := dx * dx + dy * dy
  if magSq = 0 then
    (point.x - lineStart.x) ^ 2 + (point.y - lineStart.y) ^ 2
  else
    let u := ((point.x - lineStart.x) * dx + (point.y - lineStart.y) * dy) / magSq
    let closestX := lineStart.x + u * dx
    let closestY := lineStart.y + u * dy
    (point.x - closestX) ^ 2 + (point.y - closestY) ^ 2

/-- The scan loop of `douglasPeucker` (lines 489-500): running over indices
`1 .. length-2`, keep the index and (squared) value of the largest distance
to the chord `start`-`end`.  Starts from `(maxIndex, maxDist) = (0, 0)`. -/
def dpScan (points : List Pt) (start stop : Pt) : Nat × ℚ :=
  (List.range' 1 (points.length - 2)).foldl
    (fun acc i =>
      if acc.2 < calculateDistanceToLineSq (points.getD i default) start stop then
        (i, calculateDistanceToLineSq (points.getD i default) start stop)
      else acc)
    (0, 0)

/-- Fuel-indexed Douglas-Peucker recursion (lines 486-509).  The source
recurses on strict sub-slices; `fuel ≥ points.length` makes the fuel
irrelevant (proved below), and `douglasPeucker` supplies exactly that.
The comparison `maxDist > tolerance` is embedded as
`tolerance * tolerance < maxDistSq`, equivalent for the tolerances `≥ 0`
the simplifier is specified for. -/
def dpFuel : Nat → List Pt → ℚ → List Pt
  | 0, points, _ => points
  | fuel + 1, points, tolerance =>
    if points.length < 3 then points
    else
      let start := points.getD 0 default
      let stop := points.getD (points.length - 1) default
      let md := dpScan points start stop
      if tolerance * tolerance < md.2 then
        (dpFuel fuel (points.take (md.1 + 1)) tolerance).dropLast ++
          dpFuel fuel (points.drop md.1) tolerance
      else
        [start, stop]

/-- `douglasPeucker` (lines 486-509). -/
def douglasPeucker (points : List Pt) (tolerance : ℚ) : List Pt :=
  dpFuel points.length points tolerance

/-- `simplifyPath` (lines 480-483). -/
def simplifyPath (points : List Pt) (tolerance : ℚ) : List Pt :=
  if points.length < 3 then points else douglasPeucker points tolerance

/-- General position: no ordered triple of stroke points is collinear (in
particular no point is repeated at positions that ever become the two chord
endpoints).  This is the condition under which `simplifyPath` with `ε = 0`
is the identity. -/
def psub (a b : Pt) : Pt := ⟨a.x - b.x, a.y - b.y⟩

def GenPos (points : List Pt) : Prop :=
  ∀ k, k < points.length → ∀ j, j < k → ∀ i, i < j →
    cross (psub (points.getD k default) (points.getD i default))
      (psub (points.getD j default) (points.getD i default)) ≠ 0

instance (points : List Pt) : Decidable (GenPos points) := by
  unfold GenPos; infer_instance

/-!
### GlyphStore kerning (source part_000 lines 1948-2025)

JavaScript strings are modelled as `List Char` (`String` library functions
do not reduce in the kernel, character lists do).  `str` converts a Lean
string literal for readability.  `getKerningAdjustment` walks the ordered
rule list, accumulating `k` of every rule whose two selectors match the
character pair.  The source's glyph-name lookup (`getGlyphName`,
consulting the font dictionary) is abstracted as `glyphName : Char →
List Char`.
-/

def str (s : String) : List Char := s.data

def spaceChar : Char := '\x20'

/-- JavaScript `string.split(sep)` for a one-character separator. -/
def splitOnChar (sep : Char) : List Char → List (List Char)
  | [] => [[]]
  | c :: rest =>
    let r := splitOnChar sep rest
    if c = sep then [] :: r
    else (c :: r.headD []) :: r.tail

/-- JavaScript `string.trim()`: strip leading and trailing whitespace. -/
def trimChars (l : List Char) : List Char :=
  ((l.dropWhile Char.isWhitespace).reverse.dropWhile Char.isWhitespace).reverse

inductive KernRule where
  | unicode (u1 u2 : List Char) (k : ℚ)
  | glyph (g1 g2 : List Char) (k : ℚ)
deriving DecidableEq, Repr

/-- `matchesUnicodePattern` (lines 1977-2002).  `charCodeAt(0)` of an empty
string is `NaN`, whose comparisons are all false, hence the empty-part
cases return `false`. -/
def matchesUnicodePattern (char : Char) (pattern : List Char) : Bool :=
  if pattern.isEmpty then false
  else if pattern = [char] then true
  else if pattern.contains ',' &&
      ((splitOnChar ',' pattern).map trimChars).contains [char] then true
  else if pattern.contains '-' && 3 ≤ pattern.length then
    match splitOnChar '-' pattern with
    | [a, b] =>
      match a, b with
      | ca :: _, cb :: _ => decide (ca.toNat ≤ char.toNat ∧ char.toNat ≤ cb.toNat)
      | _, _ => false
    | _ => false
  else false

/-- `matchesGlyphPattern` (lines 2012-2025). -/
def matchesGlyphPattern (glyphName pattern : List Char) : Bool :=
  if pattern.isEmpty || glyphName.isEmpty then false
  else if pattern = glyphName then true
  else if pattern.contains ',' then
    ((splitOnChar ',' pattern).map trimChars).contains glyphName
  else false

/-- `getKerningAdjustment` (lines 1950-1975): fold over the rule list in
order, adding `k` for every matching rule (the commented-out `break` of the
source is absent, so matches accumulate). -/
def getKerningAdjustment (glyphName : Char → List Char) (kerning : List KernRule)
    (char1 char2 : Char) : ℚ :=
  kerning.foldl
    (fun adjustment rule =>
      match rule with
      | .unicode u1 u2 k =>
        if matchesUnicodePattern char1 u1 && matchesUnicodePattern char2 u2 then
          adjustment + k
        else adjustment
      | .glyph g1 g2 k =>
        if matchesGlyphPattern (glyphName char1) g1 &&
            matchesGlyphPattern (glyphName char2) g2 then
          adjustment + k
        else adjustment)
    0

/-- The contribution of a single rule to the kerning sum. -/
def kernContribution (glyphName : Char → List Char) (char1 char2 : Char)
    (rule : KernRule) : ℚ :=
  match rule with
  | .unicode u1 u2 k =>
    if matchesUnicodePattern char1 u1 && matchesUnicodePattern char2 u2 then k else 0
  | .glyph g1 g2 k =>
    if matchesGlyphPattern (glyphName char1) g1 &&
        matchesGlyphPattern (glyphName char2) g2 then k else 0

/-!
### Numeric primitives for the arc machinery

`Math.sqrt`, `Math.atan2` and `Math.PI` are abstracted into a `NumOps`
bundle; all arc-detector theorems hold for every instance, and concrete
instances keep the definitions executable.
-/

structure NumOps where
  sqrt : ℚ → ℚ
  atan2 : ℚ → ℚ → ℚ
  pi : ℚ
  pi_pos : 0 < pi

/-- One pass of `while (a > PI) a -= 2*PI` with explicit iteration count. -/
def normStep1 (p : ℚ) : Nat → ℚ → ℚ
  | 0, a => a
  | f + 1, a => if p < a then normStep1 p f (a - 2 * p) else a

/-- `while (a > PI) a -= 2*PI` (for `p > 0` the loop runs exactly
`⌈(a - p)/(2p)⌉` times, which is the fuel supplied here). -/
def normLoop1 (p a : ℚ) : ℚ := normStep1 p (⌈(a - p) / (2 * p)⌉).toNat a

/-- One pass of `while (a < -PI) a += 2*PI` with explicit iteration count. -/
def normStep2 (p : ℚ) : Nat → ℚ → ℚ
  | 0, a => a
  | f + 1, a => if a < -p then normStep2 p f (a + 2 * p) else a

/-- `while (a < -PI) a += 2*PI`. -/
def normLoop2 (p a : ℚ) : ℚ := normStep2 p (⌈(-a - p) / (2 * p)⌉).toNat a

/-- The two sequential normalisation loops of the source (lines 604-605 and
771-774): normalise an angle to `[-pi, pi]`. -/
def normalizeAngle (ops : NumOps) (a : ℚ) : ℚ := normLoop2 ops.pi (normLoop1 ops.pi a)

/-!
### CircleFitter (`fitCircle`, lines 648-693)

The power sums and the 2×2 system are exact rational arithmetic; only the
radius (mean of the point-to-center distances) goes through `sqrt`.
-/

def sumX (pts : List Pt) : ℚ := (pts.map fun p => p.x).sum
def sumY (pts : List Pt) : ℚ := (pts.map fun p => p.y).sum
def sumX2 (pts : List Pt) : ℚ := (pts.map fun p => p.x * p.x).sum
def sumY2 (pts : List Pt) : ℚ := (pts.map fun p => p.y * p.y).sum
def sumXY (pts : List Pt) : ℚ := (pts.map fun p => p.x * p.y).sum
def sumX3 (pts : List Pt) : ℚ := (pts.map fun p => p.x * p.x * p.x).sum
def sumY3 (pts : List Pt) : ℚ := (pts.map fun p => p.y * p.y * p.y).sum
def sumX2Y (pts : List Pt) : ℚ := (pts.map fun p => p.x * p.x * p.y).sum
def sumXY2 (pts : List Pt) : ℚ := (pts.map fun p => p.x * p.y * p.y).sum

def kasaA (pts : List Pt) : ℚ := (pts.length : ℚ) * sumX2 pts - sumX pts * sumX pts
def kasaB (pts : List Pt) : ℚ := (pts.length : ℚ) * sumXY pts - sumX pts * sumY pts
def kasaC (pts : List Pt) : ℚ := (pts.length : ℚ) * sumY2 pts - sumY pts * sumY pts
def kasaD (pts : List Pt) : ℚ :=
  (1 / 2) * ((pts.length : ℚ) * sumXY2 pts - sumX pts * sumY2 pts +
    (pts.length : ℚ) * sumX3 pts - sumX pts * sumX2 pts)
def kasaE (pts : List Pt) : ℚ :=
  (1 / 2) * ((pts.length : ℚ) * sumY3 pts - sumY pts * sumY2 pts +
    (pts.length : ℚ) * sumX2Y pts - sumY pts * sumX2 pts)
def kasaDen (pts : List Pt) : ℚ := kasaA pts * kasaC pts - kasaB pts * kasaB pts

structure Circle where
  cx : ℚ
  cy : ℚ
  r : ℚ
deriving DecidableEq, Repr

/-- `fitCircle` (lines 648-693). -/
def fitCircle (ops : NumOps) (points : List Pt) : Option Circle :=
  if points.length < 3 then none
  else if |kasaDen points| < 1 / 10 ^ 10 then none
  else
    let cx := (kasaD points * kasaC points - kasaB points * kasaE points) / kasaDen points
    let cy := (kasaA points * kasaE points - kasaB points * kasaD points) / kasaDen points
    let sumR := points.foldl
      (fun s pt => s + ops.sqrt ((pt.x - cx) ^ 2 + (pt.y - cy) ^ 2)) 0
    some ⟨cx, cy, sumR / (points.length : ℚ)⟩

/-!
### ArcSegmenter (`isCollinear`, `isClockwise`, `fitArc`, `detectArcs`,
lines 525-646 and 696-778)
-/

/-- `isCollinear` (lines 696-751): perpendicular-distance check against the
chord, then the consecutive-direction parallelism check. -/
def isCollinear (ops : NumOps) (tolerance : ℚ) (points : List Pt) : Bool :=
  if points.length < 3 then true
  else
    let start := points.getD 0 default
    let stop := points.getD (points.length - 1) default
    let dx := stop.x - start.x
    let dy := stop.y - start.y
    let lineLength := ops.sqrt (dx * dx + dy * dy)
    if lineLength < 1 / 10 then true
    else if ¬ ((List.range' 1 (points.length - 2)).all fun i =>
        let pt := points.getD i default
        let distance := |dy * pt.x - dx * pt.y + stop.x * start.y - stop.y * start.x| / lineLength
        decide (¬ tolerance < distance)) then false
    else
      (List.range (points.length - 2)).all fun i =>
        let p1 := points.getD i default
        let p2 := points.getD (i + 1) default
        let p3 := points.getD (i + 2) default
        let dx1 := p2.x - p1.x
        let dy1 := p2.y - p1.y
        let dx2 := p3.x - p2.x
        let dy2 := p3.y - p2.y
        let len1 := ops.sqrt (dx1 * dx1 + dy1 * dy1)
        let len2 := ops.sqrt (dx2 * dx2 + dy2 * dy2)
        if len1 < 1 / 10 ∨ len2 < 1 / 10 then true
        else
          let dotProduct := (dx1 / len1) * (dx2 / len2) + (dy1 / len1) * (dy2 / len2)
          decide (¬ |dotProduct| < 19 / 20)

/-- `isClockwise` (lines 754-778).  `endRel` is computed but unused, as in
the source. -/
def isClockwise (ops : NumOps) (points : List Pt) (c : Circle) : Bool :=
  if points.length < 2 then false
  else
    let start := points.getD 0 default
    let stop := points.getD (points.length - 1) default
    let mid := points.getD (points.length / 2) default
    let angleStart := ops.atan2 (start.y - c.cy) (start.x - c.cx)
    let angleMid := ops.atan2 (mid.y - c.cy) (mid.x - c.cx)
    let _angleEnd := ops.atan2 (stop.y - c.cy) (stop.x - c.cx)
    let midRel := normalizeAngle ops (angleMid - angleStart)
    let _endRel := normalizeAngle ops (_angleEnd - angleStart)
    decide (midRel < 0)

/-- The subtended angle between `startPt` and `endPt` about `center`,
normalised — exactly the quantity of `fitArc` lines 599-605. -/
def arcAngle (ops : NumOps) (startPt endPt center : Pt) : ℚ :=
  normalizeAngle ops
    (ops.atan2 (endPt.y - center.y) (endPt.x - center.x) -
      ops.atan2 (startPt.y - center.y) (startPt.x - center.x))

/-- `arcAngleDeg` of `fitArc` line 607. -/
def arcAngleDeg (ops : NumOps) (startPt endPt center : Pt) : ℚ :=
  |arcAngle ops startPt endPt center| * 180 / ops.pi

/-- Chord length of `fitArc` lines 615-617. -/
def chordLength (ops : NumOps) (startPt endPt : Pt) : ℚ :=
  ops.sqrt ((endPt.x - startPt.x) * (endPt.x - startPt.x) +
    (endPt.y - startPt.y) * (endPt.y - startPt.y))

/-- `arcToChordRatio` of `fitArc` lines 620-625 (`0` when the chord is not
positive, as in the source's ternary). -/
def arcToChordRatio (ops : NumOps) (startPt endPt : Pt) (radius : ℚ) (center : Pt) : ℚ :=
  let arcLength := radius * |arcAngle ops startPt endPt center|
  if 0 < chordLength ops startPt endPt then arcLength / chordLength ops startPt endPt else 0

structure ArcResult where
  endIndex : Nat
  center : Pt
  radius : ℚ
  clockwise : Bool
deriving DecidableEq, Repr

/-- The body of one `endIdx` iteration of `fitArc` (lines 567-642): the
candidate sub-sequence `stroke[startIdx..endIdx]` and the chain of
rejection checks; `none` corresponds to `continue`. -/
def tryFitAt (ops : NumOps) (arcTolerance : ℚ) (stroke : List Pt)
    (startIdx endIdx : Nat) : Option ArcResult :=
  let points := (stroke.drop startIdx).take (endIdx + 1 - startIdx)
  if isCollinear ops arcTolerance points then none
  else
    match fitCircle ops points with
    | none => none
    | some cir =>
      if cir.r < 1 / 2 ∨ 50 < cir.r then none
      else if ¬ points.all (fun pt =>
          let dist := ops.sqrt ((pt.x - cir.cx) ^ 2 + (pt.y - cir.cy) ^ 2)
          decide (¬ arcTolerance < |dist - cir.r|)) then none
      else
        let startPt := points.getD 0 default
        let endPt := points.getD (points.length - 1) default
        let center := Pt.mk cir.cx cir.cy
        if arcAngleDeg ops startPt endPt center < 20 then none
        else if arcToChordRatio ops startPt endPt cir.r center < 21 / 20 then none
        else some ⟨endIdx, center, cir.r, isClockwise ops points cir⟩

/-- The downward `endIdx` loop of `fitArc` (line 566): from the argument
down while `endIdx > startIdx + 2`, returning the first success. -/
def fitArcLoop (ops : NumOps) (arcTolerance : ℚ) (stroke : List Pt)
    (startIdx : Nat) : Nat → Option ArcResult
  | 0 => none
  | e + 1 =>
    if startIdx + 2 < e + 1 then
      match tryFitAt ops arcTolerance stroke startIdx (e + 1) with
      | some r => some r
      | none => fitArcLoop ops arcTolerance stroke startIdx e
    else none

/-- `fitArc` (lines 562-646). -/
def fitArc (ops : NumOps) (arcTolerance : ℚ) (stroke : List Pt)
    (startIdx : Nat) : Option ArcResult :=
  let maxPoints := min (startIdx + 20) stroke.length
  fitArcLoop ops arcTolerance stroke startIdx (maxPoints - 1)

inductive Segment where
  | line (points : List Pt)
  | arc (start stop center : Pt) (radius : ℚ) (clockwise : Bool)
deriving DecidableEq, Repr

/-- The `else` branch of the `detectArcs` loop (lines 546-555): a line
segment covering at least one point forward. -/
def detectLineStep (stroke : List Pt) (i : Nat) : Segment × Nat :=
  let lineEnd := min (i + 1) (stroke.length - 1)
  (Segment.line ((stroke.drop i).take (lineEnd + 1 - i)),
    if i = lineEnd then i + 1 else lineEnd)

/-- One iteration of the `detectArcs` loop (lines 531-556): emitted segment
and updated index. -/
def detectStep (ops : NumOps) (arcTolerance : ℚ) (stroke : List Pt)
    (i : Nat) : Segment × Nat :=
  match fitArc ops arcTolerance stroke i with
  | some arcResult =>
    if 3 ≤ arcResult.endIndex - i then
      (Segment.arc (stroke.getD i default) (stroke.getD arcResult.endIndex default)
        arcResult.center arcResult.radius arcResult.clockwise, arcResult.endIndex)
    else detectLineStep stroke i
  | none => detectLineStep stroke i

/-- The `while (i < stroke.length)` loop, fuel-indexed; each iteration
advances `i`, so fuel `stroke.length` always completes (proved below). -/
def detectLoop (ops : NumOps) (arcTolerance : ℚ) (stroke : List Pt) :
    Nat → Nat → List Segment
  | 0, _ => []
  | f + 1, i =>
    if i < stroke.length then
      let s := detectStep ops arcTolerance stroke i
      s.1 :: detectLoop ops arcTolerance stroke f s.2
    else []

/-- `detectArcs` (lines 525-559). -/
def detectArcs (ops : NumOps) (arcTolerance : ℚ) (stroke : List Pt) : List Segment :=
  if stroke.length < 5 then [Segment.line stroke]
  else detectLoop ops arcTolerance stroke stroke.length 0

/-!
### TextLayoutEngine: the auto-fit size search of `generateGCode`
(source part_000 lines 2160-2273)

Per-glyph data: only the fields the layout reads (`bounds.minX`,
`bounds.width`, `horizAdvX`); a font is a partial map from string keys
(modelled as `List Char`) to glyph data, exactly the `this.font`
dictionary.  Text lines and words are `List Char`.
-/

structure CharData where
  boundsMinX : ℚ
  boundsWidth : ℚ
  horizAdvX : Option ℚ
deriving DecidableEq, Repr

/-- `normalizeCharacter` (lines 1935-1946). -/
def normalizeCharacter (s : List Char) : List Char :=
  if s = ['\u2019'] then ['\x27']
  else if s = ['\u2018'] then ['\x27']
  else if s = ['\u201C'] then ['\x22']
  else if s = ['\u201D'] then ['\x22']
  else if s = ['\u2013'] then ['\x2D']
  else if s = ['\u2014'] then ['\x2D']
  else if s = ['\u2026'] then ['\x2E', '\x2E', '\x2E']
  else s

/-- Word width as computed by the auto-fit re-wrap (lines 2178-2188): the
*unnormalised* font lookup and `bounds.width`, falling back to
`testSize * 0.5`, plus `charSpacing` per character. -/
def wordWidthWrap (font : List Char → Option CharData)
    (testScale testSize charSpacing : ℚ) (word : List Char) : ℚ :=
  word.foldl
    (fun acc c =>
      match font [c] with
      | some charData => acc + (charData.boundsWidth * testScale + charSpacing)
      | none => acc + (testSize * (1 / 2) + charSpacing))
    0

/-- Greedy word wrap of one input line (lines 2172-2209), accumulator
`(finished lines, current line, current width)`; the trailing
`currentLine` is pushed even when empty. -/
def wrapInputLine (font : List Char → Option CharData)
    (testScale testSize charSpacing spaceWidth maxWidth : ℚ)
    (inputLine : List Char) : List (List Char) :=
  let r := (splitOnChar spaceChar inputLine).foldl
    (fun (acc : List (List Char) × List Char × ℚ) word =>
      let ww := wordWidthWrap font testScale testSize charSpacing word
      let spaceWidthTotal := spaceWidth + charSpacing
      if 0 < acc.2.1.length ∧ maxWidth < acc.2.2 + spaceWidthTotal + ww then
        (acc.1 ++ [acc.2.1], word, ww)
      else if 0 < acc.2.1.length then
        (acc.1, acc.2.1 ++ [spaceChar] ++ word, acc.2.2 + spaceWidthTotal + ww)
      else
        (acc.1, word, ww))
    ([], [], 0)
  r.1 ++ [r.2.1]

/-- The re-wrap over all input lines (lines 2170-2212): wraps only when
`maxWidth > 0`, otherwise keeps the input lines. -/
def testWrap (font : List Char → Option CharData)
    (testScale testSize charSpacing spaceWidth maxWidth : ℚ)
    (inputLines : List (List Char)) : List (List Char) :=
  if 0 < maxWidth then
    (inputLines.map
      (wrapInputLine font testScale testSize charSpacing spaceWidth maxWidth)).flatten
  else inputLines

/-- Measured width of one character of a wrapped line (lines 2218-2233):
*normalised* lookup preferring `horizAdvX`; an undefined space falls back
through the space glyph to `spaceWidth`; other undefined characters to
`testSize * 0.5`. -/
def measureLineChar (font : List Char → Option CharData)
    (testScale testSize charSpacing spaceWidth : ℚ) (c : Char) : ℚ :=
  match font (normalizeCharacter [c]) with
  | some charData =>
    match charData.horizAdvX with
    | some h => h * testScale + charSpacing
    | none => charData.boundsWidth * testScale + charSpacing
  | none =>
    if c = spaceChar then
      match font [spaceChar] with
      | some spaceCharData =>
        match spaceCharData.horizAdvX with
        | some h => h * testScale + charSpacing
        | none => spaceWidth + charSpacing
      | none => spaceWidth + charSpacing
    else testSize * (1 / 2) + charSpacing

def lineWidth (font : List Char → Option CharData)
    (testScale testSize charSpacing spaceWidth : ℚ) (line : List Char) : ℚ :=
  line.foldl
    (fun acc c => acc + measureLineChar font testScale testSize charSpacing spaceWidth c) 0

/-- `maxLineWidth` (lines 2215-2236). -/
def maxLineWidth (font : List Char → Option CharData)
    (testScale testSize charSpacing spaceWidth : ℚ) (lines : List (List Char)) : ℚ :=
  lines.foldl
    (fun m line => max m (lineWidth font testScale testSize charSpacing spaceWidth line)) 0

/-- `totalHeight` (lines 2239-2243): first line contributes `testSize`,
each further line `testSize * 0.5` when blank, else `testSize + lineGap`. -/
def totalHeightOf (testSize lineGap : ℚ) (lines : List (List Char)) : ℚ :=
  testSize + (lines.drop 1).foldl
    (fun h line => h + (if line.length = 0 then testSize * (1 / 2) else testSize + lineGap)) 0

structure Dims where
  width : ℚ
  height : ℚ
  wrappedLines : List (List Char)
deriving DecidableEq, Repr

/-- `calculateDimensions` (lines 2165-2246). -/
def calculateDimensions (font : List Char → Option CharData)
    (referenceHeight charSpacing spaceWidth lineGap maxWidth : ℚ)
    (inputLines : List (List Char)) (testSize : ℚ) : Dims :=
  let testScale := testSize / referenceHeight
  let lines := testWrap font testScale testSize charSpacing spaceWidth maxWidth inputLines
  ⟨maxLineWidth font testScale testSize charSpacing spaceWidth lines,
    totalHeightOf testSize lineGap lines, lines⟩

/-- The fit test of lines 2257-2258: a non-positive bound is ignored. -/
def fitsDims (maxWidth maxHeight : ℚ) (d : Dims) : Prop :=
  (maxWidth ≤ 0 ∨ d.width ≤ maxWidth) ∧ (maxHeight ≤ 0 ∨ d.height ≤ maxHeight)

instance (maxWidth maxHeight : ℚ) (d : Dims) : Decidable (fitsDims maxWidth maxHeight d) := by
  unfold fitsDims; infer_instance

/-- Candidate sizes of the `for (testSize = outputSize; testSize <=
maxTextSize; testSize += 0.5)` loop (line 2253). -/
def autoFitCandidates (outputSize maxTextSize : ℚ) : List ℚ :=
  (List.range (⌊(maxTextSize - outputSize) * 2⌋ + 1).toNat).map
    (fun k => outputSize + (k : ℚ) / 2)

/-- The search loop body (lines 2253-2267): update `best` while candidates
fit, stop at the first candidate that does not. -/
def autoFitLoop (calcDims : ℚ → Dims) (maxWidth maxHeight : ℚ) :
    List ℚ → ℚ × List (List Char) → ℚ × List (List Char)
  | [], best => best
  | c :: rest, best =>
    let dims := calcDims c
    if fitsDims maxWidth maxHeight dims then
      autoFitLoop calcDims maxWidth maxHeight rest (c, dims.wrappedLines)
    else best

/-- The auto-fit size search of `generateGCode` (lines 2248-2270), given
the pre-computed initial wrapping as the starting `best`. -/
def autoFitSearch (font : List Char → Option CharData)
    (referenceHeight charSpacing spaceWidth lineGap maxWidth maxHeight : ℚ)
    (outputSize maxTextSize : ℚ) (inputLines : List (List Char))
    (initialWrapped : List (List Char)) : ℚ × List (List Char) :=
  autoFitLoop
    (calculateDimensions font referenceHeight charSpacing spaceWidth lineGap maxWidth inputLines)
    maxWidth maxHeight (autoFitCandidates outputSize maxTextSize)
    (outputSize, initialWrapped)

/-!
### Exporter glyph placement (C4, C9)
-/

/-- Per-character horizontal advance of `generateGCode` (lines 2405-2424):
`spacing = charSpacing - kerning`, width from `horizAdvX * canvasScale`
(SVG units → canvas pixels) or the visual bounds width, scaled. -/
def gcodeCharAdvance (charData : CharData)
    (canvasScale scale charSpacing kernAdjustment : ℚ) : ℚ :=
  let spacing := charSpacing - kernAdjustment
  let charWidthCanvas :=
    match charData.horizAdvX with
    | some h => h * canvasScale
    | none => charData.boundsWidth
  charWidthCanvas * scale + spacing

/-- Per-character horizontal advance of `exportImage` (lines 2719-2721):
kerning is never consulted. -/
def imageCharAdvance (charData : CharData)
    (svgToCanvasScale scale charSpacing : ℚ) : ℚ :=
  match charData.horizAdvX with
  | some h => h * svgToCanvasScale * scale + charSpacing
  | none => charData.boundsWidth * scale + charSpacing

/-- The shared canvas→output transform of the exporters:
`x ↦ (x - bounds.minX) * scale + currentX`, `y ↦ currentY - y * scale`. -/
def transformPoint (boundsMinX scale currentX currentY : ℚ) (p : Pt) : Pt :=
  ⟨(p.x - boundsMinX) * scale + currentX, currentY - p.y * scale⟩

structure ArcMove where
  cmd : String
  endX : ℚ
  endY : ℚ
  i : ℚ
  j : ℚ
deriving DecidableEq, Repr

/-- The arc-emission computation of `generateGCode` (lines 2330-2369):
transformed endpoints and center, `I`/`J` offsets, and the G2/G3 choice
(`segment.clockwise ? 'G3' : 'G2'`). -/
def gcodeArcMove (startPt endPt center : Pt) (clockwise : Bool)
    (boundsMinX scale currentX currentY : ℚ) : ArcMove :=
  let startX := (startPt.x - boundsMinX) * scale + currentX
  let startY := currentY - startPt.y * scale
  let endX := (endPt.x - boundsMinX) * scale + currentX
  let endY := currentY - endPt.y * scale
  let centerX := (center.x - boundsMinX) * scale + currentX
  let centerY := currentY - center.y * scale
  ⟨if clockwise then "G3" else "G2", endX, endY, centerX - startX, centerY - startY⟩

/-!
### Undo history (`saveToHistory` / `undo` / `redo`, lines 1243-1272)

`JSON.parse(JSON.stringify(...))` deep copies are identities in the pure
model.  `historyIndex` starts at `-1`, so it is an integer.
-/

structure EditorHistory where
  history : List (List (List Pt))
  historyIndex : Int
  strokes : List (List Pt)
deriving DecidableEq, Repr

/-- `saveToHistory` (lines 1244-1252). -/
def saveToHistory (s : EditorHistory) : EditorHistory :=
  let h := s.history.take (s.historyIndex + 1).toNat ++ [s.strokes]
  let idx := s.historyIndex + 1
  if 50 < h.length then ⟨h.drop 1, idx - 1, s.strokes⟩ else ⟨h, idx, s.strokes⟩

/-- `undo` (lines 1255-1262). -/
def undo (s : EditorHistory) : EditorHistory :=
  if 0 < s.historyIndex then
    ⟨s.history, s.historyIndex - 1, s.history.getD (s.historyIndex - 1).toNat []⟩
  else s

/-- `redo` (lines 1265-1272). -/
def redo (s : EditorHistory) : EditorHistory :=
  if s.historyIndex < (s.history.length : Int) - 1 then
    ⟨s.history, s.historyIndex + 1, s.history.getD (s.historyIndex + 1).toNat []⟩
  else s

/-- The undo-history invariant of claim C10. -/
def HistoryInv (s : EditorHistory) : Prop :=
  0 ≤ s.historyIndex ∧ s.historyIndex ≤ (s.history.length : Int) - 1 ∧
    s.history.length ≤ 50

instance (s : EditorHistory) : Decidable (HistoryInv s) := by
  unfold HistoryInv; infer_instance

/-!
### Concrete inputs used by counterexamples and witnesses
-/

/-- A concrete numeric-ops instance: `sqrt` constantly `1`, `atan2`
returning `1.05` on the one offset that distinguishes the arc end point,
`pi = 3`. -/
def ops0 : NumOps :=
  ⟨fun _ => 1, fun y _ => if y = -1 then 21 / 20 else 0, 3, by norm_num⟩

/-- Five stroke points; the first four lie on the unit circle. -/
def stroke0 : List Pt := [⟨1, 0⟩, ⟨0, 1⟩, ⟨-1, 0⟩, ⟨0, -1⟩, ⟨1, 0⟩]

/-- The four-point prefix of `stroke0`. -/
def pts0 : List Pt := [⟨1, 0⟩, ⟨0, 1⟩, ⟨-1, 0⟩, ⟨0, -1⟩]

/-- A one-glyph font: `"a"` with visual bounds width `4.4` and
`horizAdvX = 5`. -/
def font0 : List Char → Option CharData :=
  fun s => if s = str ("a") then some ⟨0, 22 / 5, some 5⟩ else none

/-- A short three-point stroke (shorter than 5 points). -/
def stroke1 : List Pt := [⟨0, 0⟩, ⟨1, 2⟩, ⟨3, 1⟩]

/-- A four-point stroke in general position (no collinear triple). -/
def stroke2 : List Pt := [⟨0, 0⟩, ⟨1, 2⟩, ⟨3, 1⟩, ⟨4, 5⟩]

/-- A valid one-entry history state. -/
def state0 : EditorHistory := ⟨[[[⟨0, 0⟩]]], 0, [[⟨0, 0⟩]]⟩

/-- A two-entry history state sitting at index 1. -/
def state1 : EditorHistory :=
  ⟨[[[⟨0, 0⟩]], [[⟨0, 0⟩], [⟨1, 1⟩]]], 1, [[⟨0, 0⟩], [⟨1, 1⟩]]⟩

/-!
## Theorems
-/

/-- The kerning fold adds exactly one `kernContribution` per rule. -/
theorem getKerningAdjustment_foldl (glyphName : Char → List Char) (char1 char2 : Char) :
    ∀ (kerning : List KernRule) (a : ℚ),
      kerning.foldl
        (fun adjustment rule =>
          match rule with
          | KernRule.unicode u1 u2 k =>
            if matchesUnicodePattern char1 u1 && matchesUnicodePattern char2 u2 then
              adjustment + k
            else adjustment
          | KernRule.glyph g1 g2 k =>
            if matchesGlyphPattern (glyphName char1) g1 &&
                matchesGlyphPattern (glyphName char2) g2 then
              adjustment + k
            else adjustment)
        a = a + (kerning.map (kernContribution glyphName char1 char2)).sum := by
  intro kerning
  induction kerning with
  | nil => simp
  | cons rule rest ih =>
    intro a
    have hstep : ∀ b : ℚ,
        (match rule with
          | KernRule.unicode u1 u2 k =>
            if matchesUnicodePattern char1 u1 && matchesUnicodePattern char2 u2 then
              b + k
            else b
          | KernRule.glyph g1 g2 k =>
            if matchesGlyphPattern (glyphName char1) g1 &&
                matchesGlyphPattern (glyphName char2) g2 then
              b + k
            else b) = b + kernContribution glyphName char1 char2 rule := by
      intro b
      cases rule with
      | unicode u1 u2 k => simp only [kernContribution]; split <;> simp
      | glyph g1 g2 k => simp only [kernContribution]; split <;> simp
    simp only [List.foldl_cons, List.map_cons, List.sum_cons, hstep, ih]
    ring

/-- C2: `getKerningAdjustment` returns the sum of the adjustments of all
rules whose selectors match the character pair (not first-match-wins);
selector semantics on the claim's examples: `"A-Z"` matches `'B'` and not
`'1'`, `"A,V,W"` matches `'V'` and not `'B'`, and two rules matching the
same pair both contribute to the sum. -/
theorem C2_kerning_sum_semantics (glyphName : Char → List Char)
    (kerning : List KernRule) (char1 char2 : Char) :
    getKerningAdjustment glyphName kerning char1 char2 =
      (kerning.map (kernContribution glyphName char1 char2)).sum ∧
    matchesUnicodePattern 'B' (str ("A-Z")) = true ∧
    matchesUnicodePattern '1' (str ("A-Z")) = false ∧
    matchesUnicodePattern 'V' (str ("A,V,W")) = true ∧
    matchesUnicodePattern 'B' (str ("A,V,W")) = false ∧
    getKerningAdjustment (fun c => [c])
      [KernRule.unicode (str ("A-Z")) (str ("A-Z")) 1,
        KernRule.unicode (str ("B")) (str ("B")) 2] 'B' 'B' = 1 + 2 := by
  refine ⟨?_, by decide, by decide, by decide, by decide, ?_⟩
  · exact (getKerningAdjustment_foldl glyphName char1 char2 kerning 0).trans (zero_add _)
  · have hm1 : matchesUnicodePattern 'B' (str ("A-Z")) = true := by decide
    have hm2 : matchesUnicodePattern 'B' (str ("B")) = true := by decide
    simp [getKerningAdjustment, hm1, hm2]

/-- C9: each Arc with canvas-space `clockwise = true` is emitted as `G3`
and with `clockwise = false` as `G2` (the winding is flipped because the
output Y axis is inverted relative to canvas space), and the emitted
`I`/`J` parameters are the transformed center coordinates minus the
transformed start-point coordinates. -/
theorem C9_arc_winding_flip (startPt endPt center : Pt) (clockwise : Bool)
    (boundsMinX scale currentX currentY : ℚ) :
    (gcodeArcMove startPt endPt center clockwise boundsMinX scale currentX currentY).cmd =
      (if clockwise then "G3" else "G2") ∧
    (gcodeArcMove startPt endPt center clockwise boundsMinX scale currentX currentY).i =
      (transformPoint boundsMinX scale currentX currentY center).x -
        (transformPoint boundsMinX scale currentX currentY startPt).x ∧
    (gcodeArcMove startPt endPt center clockwise boundsMinX scale currentX currentY).j =
      (transformPoint boundsMinX scale currentX currentY center).y -
        (transformPoint boundsMinX scale currentX currentY startPt).y ∧
    (gcodeArcMove startPt endPt center clockwise boundsMinX scale currentX currentY).endX =
      (transformPoint boundsMinX scale currentX currentY endPt).x ∧
    (gcodeArcMove startPt endPt center clockwise boundsMinX scale currentX currentY).endY =
      (transformPoint boundsMinX scale currentX currentY endPt).y :=
  ⟨rfl, rfl, rfl, rfl, rfl⟩

/-- C10: `saveToHistory`, `undo`, `redo` preserve the invariant
`0 ≤ historyIndex ≤ history.length - 1 ∧ history.length ≤ 50`;
`saveToHistory` re-establishes it from the cleared state
(`history = []`, `historyIndex = -1`); `undo` is a no-op at index 0 and
`redo` at the last index; after a non-no-op `undo`/`redo` the current
strokes equal (the deep copy of) `history[historyIndex]`. -/
theorem C10_history_invariant (s : EditorHistory) (st : List (List Pt)) :
    (HistoryInv s → HistoryInv (saveToHistory s) ∧ HistoryInv (undo s) ∧ HistoryInv (redo s)) ∧
    HistoryInv (saveToHistory ⟨[], -1, st⟩) ∧
    (s.historyIndex = 0 → undo s = s) ∧
    (s.historyIndex = (s.history.length : Int) - 1 → redo s = s) ∧
    (0 < s.historyIndex →
      (undo s).strokes = (undo s).history.getD (undo s).historyIndex.toNat [] ∧
      (undo s).historyIndex = s.historyIndex - 1) ∧
    (s.historyIndex < (s.history.length : Int) - 1 →
      (redo s).strokes = (redo s).history.getD (redo s).historyIndex.toNat [] ∧
      (redo s).historyIndex = s.historyIndex + 1) := by
  refine ⟨?_, ?_, ?_, ?_, ?_, ?_⟩
  · rintro ⟨h1, h2, h3⟩
    refine ⟨?_, ?_, ?_⟩
    · unfold saveToHistory HistoryInv
      simp only [List.length_append, List.length_take, List.length_singleton, List.length_drop]
      split <;> (simp_all; omega)
    · unfold undo HistoryInv
      split <;> (try simp_all) <;> (try omega)
    · unfold redo HistoryInv
      split <;> (try simp_all) <;> (try omega)
  · unfold saveToHistory HistoryInv
    norm_num
  · intro h
    unfold undo
    rw [h]
    simp
  · intro h
    unfold redo
    rw [h]
    simp
  · intro h
    simp [undo, h]
  · intro h
    simp [redo, h]

/-- C10 witness: the concrete two-entry state `state1` satisfies the
invariant; instantiating the theorem there gives invariant preservation
and the non-no-op `undo` behaviour. -/
theorem C10_history_invariant_witness :
    (HistoryInv (saveToHistory state1) ∧ HistoryInv (undo state1) ∧ HistoryInv (redo state1)) ∧
    ((undo state1).strokes = (undo state1).history.getD (undo state1).historyIndex.toNat [] ∧
      (undo state1).historyIndex = state1.historyIndex - 1) :=
  ⟨(C10_history_invariant state1 []).1 (by decide),
    (C10_history_invariant state1 []).2.2.2.2.1 (by decide)⟩

/-- C7: `fitCircle` returns no fit exactly when there are fewer than 3
points or the 2×2 system determinant has magnitude below `1e-10`;
otherwise the returned center solves the system
`A·cx + B·cy = D`, `B·cx + C·cy = E` and the radius is the arithmetic mean
of the computed distances from the input points to that center. -/
theorem C7_fitCircle_spec (ops : NumOps) (points : List Pt) :
    (fitCircle ops points = none ↔
      points.length < 3 ∨ |kasaDen points| < 1 / 10 ^ 10) ∧
    (∀ c, fitCircle ops points = some c →
      kasaA points * c.cx + kasaB points * c.cy = kasaD points ∧
      kasaB points * c.cx + kasaC points * c.cy = kasaE points ∧
      c.r = points.foldl
        (fun s pt => s + ops.sqrt ((pt.x - c.cx) ^ 2 + (pt.y - c.cy) ^ 2)) 0 /
        (points.length : ℚ)) := by
  unfold fitCircle
  split_ifs with h1 h2
  · exact ⟨⟨fun _ => Or.inl h1, fun _ => rfl⟩, fun c hc => by cases hc⟩
  · exact ⟨⟨fun _ => Or.inr h2, fun _ => rfl⟩, fun c hc => by cases hc⟩
  · have hden : kasaDen points ≠ 0 := by
      intro h0
      rw [h0] at h2
      norm_num at h2
    refine ⟨⟨fun hco => by simp at hco, fun hor => ?_⟩, ?_⟩
    · rcases hor with hor | hor
      · exact absurd hor h1
      · exact absurd hor h2
    · intro c hc
      injection hc with hc
      subst hc
      refine ⟨?_, ?_, rfl⟩
      · field_simp
        simp only [kasaDen]
        ring
      · field_simp
        simp only [kasaDen]
        ring

/-- C7 witness: on the four concrete unit-circle points `pts0`, the fit
succeeds with center `(0,0)` solving the linear system, and radius `1`,
the mean of the computed distances. -/
theorem C7_fitCircle_spec_witness :
    kasaA pts0 * (0 : ℚ) + kasaB pts0 * (0 : ℚ) = kasaD pts0 ∧
    kasaB pts0 * (0 : ℚ) + kasaC pts0 * (0 : ℚ) = kasaE pts0 ∧
    (1 : ℚ) = pts0.foldl
      (fun s pt => s + ops0.sqrt ((pt.x - 0) ^ 2 + (pt.y - 0) ^ 2)) 0 / (pts0.length : ℚ) :=
  (C7_fitCircle_spec ops0 pts0).2 ⟨0, 0, 1⟩ (by
    norm_num [fitCircle, pts0, ops0, kasaA, kasaB, kasaC, kasaD, kasaE, kasaDen,
      sumX, sumY, sumX2, sumY2, sumXY, sumX3, sumY3, sumX2Y, sumXY2])

/-- The candidate grid from size 10 to 11 in half steps. -/
theorem autoFitCandidates_ten_eleven : autoFitCandidates 10 11 = [10, 21 / 2, 11] := by
  have hc : (⌊((11 : ℚ) - 10) * 2⌋ + 1).toNat = 3 := by
    norm_num
    decide
  unfold autoFitCandidates
  rw [hc]
  simp [List.range_succ]
  norm_num

/-- At size 10 the `"a a"` text stays on one line under the wrap check but
its measured width `11` exceeds `maxWidth = 10`. -/
theorem font0_fails_at_ten :
    ¬ fitsDims 10 0 (calculateDimensions font0 10 0 1 0 10 [str ("a a")] 10) := by
  have hsp : splitOnChar spaceChar (str ("a a")) = [['a'], ['a']] := by decide
  have hna : normalizeCharacter [('a' : Char)] = ['a'] := by decide
  have hns : normalizeCharacter [spaceChar] = [spaceChar] := by decide
  have hfa : font0 ['a'] = some ⟨0, 22 / 5, some 5⟩ := rfl
  have hfs : font0 [spaceChar] = none := rfl
  norm_num [fitsDims, calculateDimensions, testWrap, wrapInputLine, wordWidthWrap,
    maxLineWidth, lineWidth, measureLineChar, totalHeightOf, hsp, hna, hns, hfa, hfs]

/-- At size 10.5 the wrap check splits the two words and both lines fit. -/
theorem font0_fits_at_ten_and_half :
    fitsDims 10 0 (calculateDimensions font0 10 0 1 0 10 [str ("a a")] (21 / 2)) := by
  have hsp : splitOnChar spaceChar (str ("a a")) = [['a'], ['a']] := by decide
  have hna : normalizeCharacter [('a' : Char)] = ['a'] := by decide
  have hfa : font0 ['a'] = some ⟨0, 22 / 5, some 5⟩ := rfl
  norm_num [fitsDims, calculateDimensions, testWrap, wrapInputLine, wordWidthWrap,
    maxLineWidth, lineWidth, measureLineChar, totalHeightOf, hsp, hna, hfa]

/-- C3 counterexample: with the one-glyph font `font0` (wrap check uses
`bounds.width = 4.4`, measurement uses `horizAdvX = 5`), text `"a a"`,
`maxWidth = 10`, `outputSize = 10`, `maxTextSize = 11`: the first
candidate 10 fails the constraints, so the search stops immediately and
returns 10 — yet candidate 10.5 (a grid element not exceeding
`maxTextSize`) satisfies the constraints.  The search therefore does not
return the largest satisfying candidate, refuting the claim. -/
theorem C3_autofit_counterexample :
    autoFitSearch font0 10 0 1 0 10 0 10 11 [str ("a a")] [str ("a a")] =
      (10, [str ("a a")]) ∧
    ¬ fitsDims 10 0 (calculateDimensions font0 10 0 1 0 10 [str ("a a")] 10) ∧
    fitsDims 10 0 (calculateDimensions font0 10 0 1 0 10 [str ("a a")] (21 / 2)) ∧
    (21 / 2 : ℚ) ∈ autoFitCandidates 10 11 := by
  refine ⟨?_, font0_fails_at_ten, font0_fits_at_ten_and_half, ?_⟩
  · unfold autoFitSearch
    rw [autoFitCandidates_ten_eleven]
    rw [autoFitLoop]
    rw [if_neg font0_fails_at_ten]
  · rw [autoFitCandidates_ten_eleven]
    norm_num

/-- The search loop returns the last element of the longest all-fitting
prefix of the candidate list (with the starting best as default). -/
theorem autoFitLoop_eq_takeWhile (calcDims : ℚ → Dims) (maxW maxH : ℚ) :
    ∀ (cs : List ℚ) (b : ℚ) (L : List (List Char)),
      autoFitLoop calcDims maxW maxH cs (b, L) =
        ((cs.takeWhile fun c => decide (fitsDims maxW maxH (calcDims c))).getLastD b,
          ((cs.takeWhile fun c => decide (fitsDims maxW maxH (calcDims c))).map
            (fun c => (calcDims c).wrappedLines)).getLastD L) := by
  intro cs
  induction cs with
  | nil => intro b L; simp [autoFitLoop]
  | cons c rest ih =>
    intro b L
    by_cases h : fitsDims maxW maxH (calcDims c)
    · rw [autoFitLoop]
      simp only [if_pos h]
      rw [ih c (calcDims c).wrappedLines]
      rw [List.takeWhile_cons_of_pos (by simpa using h)]
      rw [List.map_cons]
      rw [List.getLastD_cons, List.getLastD_cons]
    · rw [autoFitLoop]
      simp only [if_neg h]
      rw [List.takeWhile_cons_of_neg (by simpa using h)]
      simp

/-- C3 (amended): when auto-fit is enabled, the size search walks the
candidate grid `outputSize, outputSize + 0.5, …` up to `maxTextSize` and
returns the last candidate of the longest prefix all of whose elements
satisfy the maxWidth/maxHeight constraints (a 0/unset constraint is
ignored), together with that candidate's re-wrapped lines; it stops at the
first failing candidate, so when the very first candidate fails it returns
`outputSize` with the pre-computed wrapping even if a later candidate
would fit.  Determinism is immediate: the search is a pure function of its
inputs. -/
theorem C3_autofit_stops_at_first_failure (font : List Char → Option CharData)
    (referenceHeight charSpacing spaceWidth lineGap maxWidth maxHeight : ℚ)
    (outputSize maxTextSize : ℚ) (inputLines initialWrapped : List (List Char)) :
    autoFitSearch font referenceHeight charSpacing spaceWidth lineGap maxWidth maxHeight
        outputSize maxTextSize inputLines initialWrapped =
      (((autoFitCandidates outputSize maxTextSize).takeWhile fun c =>
          decide (fitsDims maxWidth maxHeight
            (calculateDimensions font referenceHeight charSpacing spaceWidth lineGap
              maxWidth inputLines c))).getLastD outputSize,
        (((autoFitCandidates outputSize maxTextSize).takeWhile fun c =>
          decide (fitsDims maxWidth maxHeight
            (calculateDimensions font referenceHeight charSpacing spaceWidth lineGap
              maxWidth inputLines c))).map
          (fun c => (calculateDimensions font referenceHeight charSpacing spaceWidth lineGap
            maxWidth inputLines c).wrappedLines)).getLastD initialWrapped) := by
  unfold autoFitSearch
  exact autoFitLoop_eq_takeWhile _ maxWidth maxHeight _ outputSize initialWrapped

/-- C4: code bug — `generateGCode` subtracts the kerning adjustment from
the per-character advance (line 2410) while `exportImage` (and the SVG/DXF
exporters) never consult `getKerningAdjustment`: with kern rule
`(A, A, k = 2)`, glyph `A` with `horizAdvX = 500`, SVG→canvas scale
`0.42`, output scale `1` and zero charSpacing, the motion-code advance is
`208` but the image advance is `210`. -/
theorem C4_exporter_kerning_divergence :
    gcodeCharAdvance ⟨0, 30, some 500⟩ (21 / 50) 1 0
        (getKerningAdjustment (fun c => [c])
          [KernRule.unicode (str ("A")) (str ("A")) 2] 'A' 'A') = 208 ∧
    imageCharAdvance ⟨0, 30, some 500⟩ (21 / 50) 1 0 = 210 ∧
    gcodeCharAdvance ⟨0, 30, some 500⟩ (21 / 50) 1 0
        (getKerningAdjustment (fun c => [c])
          [KernRule.unicode (str ("A")) (str ("A")) 2] 'A' 'A') ≠
      imageCharAdvance ⟨0, 30, some 500⟩ (21 / 50) 1 0 := by
  have hm : matchesUnicodePattern 'A' (str ("A")) = true := by decide
  have hk : getKerningAdjustment (fun c => [c])
      [KernRule.unicode (str ("A")) (str ("A")) 2] 'A' 'A' = 2 := by
    simp [getKerningAdjustment, hm]
  rw [hk]
  refine ⟨?_, ?_, ?_⟩
  · norm_num [gcodeCharAdvance]
  · norm_num [imageCharAdvance]
  · norm_num [gcodeCharAdvance, imageCharAdvance]

/-- `toNat` of the ceiling of a non-positive rational is zero (used to show
the normalisation loops run zero iterations on already-normalised input). -/
theorem ceil_toNat_zero (q : ℚ) (h : q ≤ 0) : (⌈q⌉).toNat = 0 := by
  rw [Int.toNat_eq_zero]
  exact Int.ceil_le.mpr (by exact_mod_cast h)

/-- The subtract-`2p` loop, run for its full iteration count, ends `≤ p`. -/
theorem normStep1_le (p : ℚ) (hp : 0 < p) :
    ∀ (f : Nat) (a : ℚ), (⌈(a - p) / (2 * p)⌉).toNat ≤ f → normStep1 p f a ≤ p := by
  intro f
  induction f with
  | zero =>
    intro a h
    have h0 : ⌈(a - p) / (2 * p)⌉ ≤ 0 := by omega
    have h1 : (a - p) / (2 * p) ≤ 0 := by exact_mod_cast Int.ceil_le.mp h0
    have h2 : a - p ≤ 0 := by
      by_contra hcon
      push_neg at hcon
      have : 0 < (a - p) / (2 * p) := div_pos (by linarith) (by linarith)
      linarith
    rw [normStep1]
    linarith
  | succ f ih =>
    intro a h
    rw [normStep1]
    split_ifs with hlt
    · apply ih
      have hkey : (a - 2 * p - p) / (2 * p) = (a - p) / (2 * p) - 1 := by
        field_simp
        ring
      have hpos : 0 < ⌈(a - p) / (2 * p)⌉ := by
        rw [Int.ceil_pos]
        exact div_pos (by linarith) (by linarith)
      rw [hkey, Int.ceil_sub_one]
      omega
    · linarith [not_lt.mp hlt]

/-- The add-`2p` loop keeps the `≤ p` bound and establishes `-p ≤ ·`. -/
theorem normStep2_bounds (p : ℚ) (hp : 0 < p) :
    ∀ (f : Nat) (a : ℚ), (⌈(-a - p) / (2 * p)⌉).toNat ≤ f → a ≤ p →
      -p ≤ normStep2 p f a ∧ normStep2 p f a ≤ p := by
  intro f
  induction f with
  | zero =>
    intro a h ha
    have h0 : ⌈(-a - p) / (2 * p)⌉ ≤ 0 := by omega
    have h1 : (-a - p) / (2 * p) ≤ 0 := by exact_mod_cast Int.ceil_le.mp h0
    have h2 : -a - p ≤ 0 := by
      by_contra hcon
      push_neg at hcon
      have : 0 < (-a - p) / (2 * p) := div_pos (by linarith) (by linarith)
      linarith
    rw [normStep2]
    exact ⟨by linarith, ha⟩
  | succ f ih =>
    intro a h ha
    rw [normStep2]
    split_ifs with hlt
    · apply ih
      · have hkey : (-(a + 2 * p) - p) / (2 * p) = (-a - p) / (2 * p) - 1 := by
          field_simp
          ring
        have hpos : 0 < ⌈(-a - p) / (2 * p)⌉ := by
          rw [Int.ceil_pos]
          exact div_pos (by linarith) (by linarith)
        rw [hkey, Int.ceil_sub_one]
        omega
      · linarith
    · exact ⟨not_lt.mp hlt, ha⟩

/-- The source's two sequential while loops normalise any angle into
`[-pi, pi]`. -/
theorem normalizeAngle_mem (ops : NumOps) (a : ℚ) :
    -ops.pi ≤ normalizeAngle ops a ∧ normalizeAngle ops a ≤ ops.pi := by
  unfold normalizeAngle normLoop1 normLoop2
  exact normStep2_bounds ops.pi ops.pi_pos _ _ le_rfl
    (normStep1_le ops.pi ops.pi_pos _ a le_rfl)

/-- The normalised subtended angle always lies in `[-pi, pi]`. -/
theorem arcAngle_abs_le (ops : NumOps) (startPt endPt center : Pt) :
    |arcAngle ops startPt endPt center| ≤ ops.pi := by
  unfold arcAngle
  exact abs_le.mpr ⟨(normalizeAngle_mem ops _).1, (normalizeAngle_mem ops _).2⟩

/-- A successful `tryFitAt` carries exactly `endIdx` and passed every
rejection check of `fitArc`. -/
theorem tryFitAt_some (ops : NumOps) (tol : ℚ) (stroke : List Pt)
    (startIdx endIdx : Nat) (r : ArcResult)
    (h : tryFitAt ops tol stroke startIdx endIdx = some r) :
    r.endIndex = endIdx ∧ 1 / 2 ≤ r.radius ∧ r.radius ≤ 50 ∧
    20 ≤ arcAngleDeg ops
      (((stroke.drop startIdx).take (endIdx + 1 - startIdx)).getD 0 default)
      (((stroke.drop startIdx).take (endIdx + 1 - startIdx)).getD
        (((stroke.drop startIdx).take (endIdx + 1 - startIdx)).length - 1) default)
      r.center ∧
    21 / 20 ≤ arcToChordRatio ops
      (((stroke.drop startIdx).take (endIdx + 1 - startIdx)).getD 0 default)
      (((stroke.drop startIdx).take (endIdx + 1 - startIdx)).getD
        (((stroke.drop startIdx).take (endIdx + 1 - startIdx)).length - 1) default)
      r.radius r.center := by
  simp only [tryFitAt] at h
  by_cases hcol : isCollinear ops tol ((stroke.drop startIdx).take (endIdx + 1 - startIdx)) = true
  · rw [if_pos hcol] at h
    cases h
  · rw [if_neg hcol] at h
    rcases hfc : fitCircle ops ((stroke.drop startIdx).take (endIdx + 1 - startIdx)) with _ | cir
    · rw [hfc] at h
      cases h
    · rw [hfc] at h
      dsimp only at h
      split_ifs at h with hrad hfit hdeg hrat
      all_goals try cases h
      push_neg at hrad
      exact ⟨rfl, hrad.1, hrad.2, not_lt.mp hdeg, not_lt.mp hrat⟩

/-- The downward loop only returns results produced by `tryFitAt` at an
index in `(startIdx + 2, e]`. -/
theorem fitArcLoop_some (ops : NumOps) (tol : ℚ) (stroke : List Pt) (startIdx : Nat) :
    ∀ (e : Nat) (r : ArcResult), fitArcLoop ops tol stroke startIdx e = some r →
      ∃ j, startIdx + 2 < j ∧ j ≤ e ∧ tryFitAt ops tol stroke startIdx j = some r := by
  intro e
  induction e with
  | zero =>
    intro r h
    rw [fitArcLoop] at h
    cases h
  | succ e ih =>
    intro r h
    rw [fitArcLoop] at h
    split_ifs at h with hcond
    · rcases htf : tryFitAt ops tol stroke startIdx (e + 1) with _ | r2
      · rw [htf] at h
        obtain ⟨j, hj1, hj2, hj3⟩ := ih r h
        exact ⟨j, hj1, Nat.le_succ_of_le hj2, hj3⟩
      · rw [htf] at h
        injection h with h
        subst h
        exact ⟨e + 1, hcond, le_rfl, htf⟩

/-- A successful `fitArc` starts at least 3 indices past `startIdx`, ends
inside the stroke, and its returned arc passed the radius, angle and
arc/chord checks (stated on the stroke's own points). -/
theorem fitArc_some (ops : NumOps) (tol : ℚ) (stroke : List Pt) (startIdx : Nat)
    (r : ArcResult) (h : fitArc ops tol stroke startIdx = some r) :
    startIdx + 3 ≤ r.endIndex ∧ r.endIndex < stroke.length ∧
    1 / 2 ≤ r.radius ∧ r.radius ≤ 50 ∧
    20 ≤ arcAngleDeg ops (stroke.getD startIdx default)
      (stroke.getD r.endIndex default) r.center ∧
    21 / 20 ≤ arcToChordRatio ops (stroke.getD startIdx default)
      (stroke.getD r.endIndex default) r.radius r.center := by
  unfold fitArc at h
  obtain ⟨j, hj1, hj2, hj3⟩ := fitArcLoop_some ops tol stroke startIdx _ r h
  obtain ⟨he, hr1, hr2, hdeg, hrat⟩ := tryFitAt_some ops tol stroke startIdx j r hj3
  have hjlen : j < stroke.length := by omega
  have hstart : startIdx < stroke.length := by omega
  have hlenpts : ((stroke.drop startIdx).take (j + 1 - startIdx)).length = j + 1 - startIdx := by
    simp only [List.length_take, List.length_drop]
    omega
  have hfirst : ((stroke.drop startIdx).take (j + 1 - startIdx)).getD 0 default =
      stroke.getD startIdx default := by
    rw [List.getD_eq_getElem?_getD, List.getD_eq_getElem?_getD,
      List.getElem?_take_of_lt (by omega), List.getElem?_drop]
    norm_num
  have hlast : ((stroke.drop startIdx).take (j + 1 - startIdx)).getD
      (((stroke.drop startIdx).take (j + 1 - startIdx)).length - 1) default =
      stroke.getD j default := by
    rw [hlenpts, List.getD_eq_getElem?_getD, List.getD_eq_getElem?_getD,
      List.getElem?_take_of_lt (by omega), List.getElem?_drop]
    have hidx : startIdx + (j + 1 - startIdx - 1) = j := by omega
    rw [hidx]
  rw [hfirst, hlast] at hdeg hrat
  rw [he]
  exact ⟨by omega, hjlen, hr1, hr2, hdeg, hrat⟩

/-- Every loop iteration strictly advances the scan index. -/
theorem detectStep_advances (ops : NumOps) (tol : ℚ) (stroke : List Pt) (i : Nat)
    (hi : i < stroke.length) : i + 1 ≤ (detectStep ops tol stroke i).2 := by
  unfold detectStep
  have hline : i + 1 ≤ (detectLineStep stroke i).2 := by
    unfold detectLineStep
    dsimp only
    split_ifs with he
    · omega
    · omega
  rcases hfa : fitArc ops tol stroke i with _ | r
  · exact hline
  · dsimp only
    split_ifs with hguard
    · omega
    · exact hline

/-- When `fitArc` succeeds and the `endIndex - i ≥ 3` guard holds, the loop
jumps to `endIndex`. -/
theorem detectStep_arc (ops : NumOps) (tol : ℚ) (stroke : List Pt) (i : Nat)
    (r : ArcResult) (hfa : fitArc ops tol stroke i = some r)
    (hguard : 3 ≤ r.endIndex - i) :
    (detectStep ops tol stroke i).2 = r.endIndex ∧ i + 3 ≤ r.endIndex := by
  unfold detectStep
  rw [hfa]
  dsimp only
  rw [if_pos hguard]
  exact ⟨rfl, by omega⟩

/-- Any fuel at least `stroke.length - i` yields the same segment list:
the loop completes in a bounded number of steps. -/
theorem detectLoop_fuel_irrelevant (ops : NumOps) (tol : ℚ) (stroke : List Pt) :
    ∀ (f1 : Nat), ∀ (f2 i : Nat), stroke.length ≤ i + f1 → stroke.length ≤ i + f2 →
      detectLoop ops tol stroke f1 i = detectLoop ops tol stroke f2 i := by
  intro f1
  induction f1 with
  | zero =>
    intro f2 i h1 h2
    have hni : ¬ i < stroke.length := by omega
    cases f2 with
    | zero => rfl
    | succ g =>
      rw [detectLoop, detectLoop, if_neg hni]
  | succ f ih =>
    intro f2 i h1 h2
    cases f2 with
    | zero =>
      have hni : ¬ i < stroke.length := by omega
      rw [detectLoop, detectLoop, if_neg hni]
    | succ g =>
      rw [detectLoop]
      conv_rhs => rw [detectLoop]
      by_cases hi : i < stroke.length
      · rw [if_pos hi, if_pos hi]
        have hadv := detectStep_advances ops tol stroke i hi
        dsimp only
        rw [ih g (detectStep ops tol stroke i).2 (by omega) (by omega)]
      · rw [if_neg hi, if_neg hi]

/-- The loop emits at most one segment per unit of fuel. -/
theorem detectLoop_length_le (ops : NumOps) (tol : ℚ) (stroke : List Pt) :
    ∀ (f i : Nat), (detectLoop ops tol stroke f i).length ≤ f := by
  intro f
  induction f with
  | zero => intro i; rw [detectLoop]; simp
  | succ g ih =>
    intro i
    rw [detectLoop]
    split_ifs
    · simpa using ih _
    · simp

/-- C8: `detectArcs` terminates with bounded work: every stroke shorter
than 5 points is returned as exactly one Line segment containing the whole
stroke; each loop iteration strictly increases the scan index (an accepted
arc advances it by at least 3, via `fitArc`'s `endIndex ≥ startIdx + 3`,
the Line fallback by at least 1); any fuel of at least `stroke.length`
iterations produces the same (complete) segment list; and the segment list
has at most `max 1 stroke.length` entries. -/
theorem C8_detectArcs_terminates (ops : NumOps) (tol : ℚ) (stroke : List Pt) :
    (stroke.length < 5 → detectArcs ops tol stroke = [Segment.line stroke]) ∧
    (∀ i, i < stroke.length → i + 1 ≤ (detectStep ops tol stroke i).2) ∧
    (∀ i r, fitArc ops tol stroke i = some r →
      i + 3 ≤ r.endIndex ∧ r.endIndex < stroke.length ∧
      (detectStep ops tol stroke i).2 = r.endIndex) ∧
    (∀ fuel, stroke.length ≤ fuel →
      detectLoop ops tol stroke fuel 0 = detectLoop ops tol stroke stroke.length 0) ∧
    (detectArcs ops tol stroke).length ≤ max 1 stroke.length := by
  refine ⟨?_, ?_, ?_, ?_, ?_⟩
  · intro h
    unfold detectArcs
    rw [if_pos h]
  · exact fun i hi => detectStep_advances ops tol stroke i hi
  · intro i r hfa
    obtain ⟨h3, hlen, _, _, _, _⟩ := fitArc_some ops tol stroke i r hfa
    refine ⟨h3, hlen, (detectStep_arc ops tol stroke i r hfa (by omega)).1⟩
  · intro fuel hf
    exact detectLoop_fuel_irrelevant ops tol stroke fuel stroke.length 0
      (by omega) (by omega)
  · unfold detectArcs
    split_ifs with h
    · simp
    · calc (detectLoop ops tol stroke stroke.length 0).length
          ≤ stroke.length := detectLoop_length_le ops tol stroke stroke.length 0
        _ ≤ max 1 stroke.length := le_max_right 1 stroke.length

/-- C8 witness: the three-point `stroke1` is emitted as a single Line, and
on `stroke0` the successful `fitArc` at index 0 advances the scan index
from 0 to 3. -/
theorem C8_detectArcs_terminates_witness :
    detectArcs ops0 0 stroke1 = [Segment.line stroke1] ∧
    (0 + 3 ≤ (3 : Nat) ∧ (3 : Nat) < stroke0.length ∧
      (detectStep ops0 0 stroke0 0).2 = 3) := by
  constructor
  · exact (C8_detectArcs_terminates ops0 0 stroke1).1 (by norm_num [stroke1])
  · have hfa0 : fitArc ops0 0 stroke0 0 = some ⟨3, ⟨0, 0⟩, 1, false⟩ := by
      have h4 : tryFitAt ops0 0 stroke0 0 4 = none := by
        norm_num [tryFitAt, stroke0, ops0, isCollinear, fitCircle, kasaA, kasaB, kasaC,
          kasaD, kasaE, kasaDen, sumX, sumY, sumX2, sumY2, sumXY, sumX3, sumY3, sumX2Y,
          sumXY2, isClockwise, arcAngleDeg, arcAngle, arcToChordRatio, chordLength,
          normalizeAngle, normLoop1, normLoop2, normStep1, normStep2, ceil_toNat_zero,
          abs_of_pos, List.range_succ]
      have h3 : tryFitAt ops0 0 stroke0 0 3 = some ⟨3, ⟨0, 0⟩, 1, false⟩ := by
        norm_num [tryFitAt, stroke0, ops0, isCollinear, fitCircle, kasaA, kasaB, kasaC,
          kasaD, kasaE, kasaDen, sumX, sumY, sumX2, sumY2, sumXY, sumX3, sumY3, sumX2Y,
          sumXY2, isClockwise, arcAngleDeg, arcAngle, arcToChordRatio, chordLength,
          normalizeAngle, normLoop1, normLoop2, normStep1, normStep2, ceil_toNat_zero,
          abs_of_pos, List.range_succ]
      have hlen : stroke0.length = 5 := rfl
      norm_num [fitArc, hlen, fitArcLoop, h4, h3]
    exact (C8_detectArcs_terminates ops0 0 stroke0).2.2.1 0 ⟨3, ⟨0, 0⟩, 1, false⟩ hfa0

/-- The scan fold either never updates or returns an element of the index
list together with its distance. -/
theorem foldMax_mem (d : Nat → ℚ) :
    ∀ (L : List Nat) (acc : Nat × ℚ),
      (L.foldl (fun a i => if a.2 < d i then (i, d i) else a) acc) = acc ∨
      ((L.foldl (fun a i => if a.2 < d i then (i, d i) else a) acc).1 ∈ L ∧
        d (L.foldl (fun a i => if a.2 < d i then (i, d i) else a) acc).1 =
          (L.foldl (fun a i => if a.2 < d i then (i, d i) else a) acc).2) := by
  intro L
  induction L with
  | nil => intro acc; left; rfl
  | cons i t ih =>
    intro acc
    rw [List.foldl_cons]
    rcases ih (if acc.2 < d i then (i, d i) else acc) with h | ⟨hm, hd⟩
    · rw [h]
      split_ifs with hup
      · right
        exact ⟨List.mem_cons_self _ _, rfl⟩
      · left
        rfl
    · right
      exact ⟨List.mem_cons_of_mem _ hm, hd⟩

/-- The scan fold's running maximum never decreases. -/
theorem foldMax_ge_acc (d : Nat → ℚ) :
    ∀ (L : List Nat) (acc : Nat × ℚ),
      acc.2 ≤ (L.foldl (fun a i => if a.2 < d i then (i, d i) else a) acc).2 := by
  intro L
  induction L with
  | nil => intro acc; exact le_rfl
  | cons i t ih =>
    intro acc
    rw [List.foldl_cons]
    refine le_trans ?_ (ih _)
    split_ifs with hup
    · exact le_of_lt hup
    · exact le_rfl

/-- The scan fold's result dominates the distance of every scanned index. -/
theorem foldMax_ge (d : Nat → ℚ) :
    ∀ (L : List Nat) (acc : Nat × ℚ) (i : Nat), i ∈ L →
      d i ≤ (L.foldl (fun a i => if a.2 < d i then (i, d i) else a) acc).2 := by
  intro L
  induction L with
  | nil => intro acc i h; cases h
  | cons a t ih =>
    intro acc i h
    rw [List.foldl_cons]
    rcases List.mem_cons.mp h with heq | hmem
    · subst heq
      refine le_trans ?_ (foldMax_ge_acc d t _)
      split_ifs with hup
      · exact le_rfl
      · exact not_lt.mp hup
    · exact ih _ i hmem

/-- A strictly positive scan maximum means an intermediate index was
selected: `1 ≤ maxIndex ≤ length - 2`. -/
theorem dpScan_pos_bounds (points : List Pt) (start stop : Pt)
    (h : 0 < (dpScan points start stop).2) :
    1 ≤ (dpScan points start stop).1 ∧
      (dpScan points start stop).1 ≤ points.length - 2 := by
  unfold dpScan at *
  rcases foldMax_mem
      (fun i => calculateDistanceToLineSq (points.getD i default) start stop)
      (List.range' 1 (points.length - 2)) (0, 0) with heq | ⟨hm, _⟩
  · rw [heq] at h
    norm_num at h
  · rw [List.mem_range'_1] at hm
    obtain ⟨h1, h2⟩ := hm
    exact ⟨h1, by omega⟩

/-- Rewrite the perpendicular squared distance as a squared cross product
over the squared chord length (Lagrange identity). -/
theorem calculateDistanceToLineSq_eq (p s e : Pt)
    (hm : (e.x - s.x) * (e.x - s.x) + (e.y - s.y) * (e.y - s.y) ≠ 0) :
    calculateDistanceToLineSq p s e =
      (cross (psub e s) (psub p s)) ^ 2 /
        ((e.x - s.x) * (e.x - s.x) + (e.y - s.y) * (e.y - s.y)) := by
  simp only [calculateDistanceToLineSq, cross, psub]
  rw [if_neg hm]
  field_simp
  ring

/-- A point off the chord line has strictly positive squared distance. -/
theorem distSq_pos_of_cross_ne (p s e : Pt)
    (h : cross (psub e s) (psub p s) ≠ 0) :
    0 < calculateDistanceToLineSq p s e := by
  by_cases hm : (e.x - s.x) * (e.x - s.x) + (e.y - s.y) * (e.y - s.y) = 0
  · exfalso
    have hx : (e.x - s.x) * (e.x - s.x) = 0 := by
      nlinarith [mul_self_nonneg (e.x - s.x), mul_self_nonneg (e.y - s.y)]
    have hy : (e.y - s.y) * (e.y - s.y) = 0 := by
      nlinarith [mul_self_nonneg (e.x - s.x), mul_self_nonneg (e.y - s.y)]
    apply h
    simp only [cross, psub]
    rw [mul_self_eq_zero.mp hx, mul_self_eq_zero.mp hy]
    ring
  · rw [calculateDistanceToLineSq_eq p s e hm]
    apply div_pos
    · exact lt_of_le_of_ne (sq_nonneg _) (Ne.symm (pow_ne_zero 2 h))
    · exact lt_of_le_of_ne (add_nonneg (mul_self_nonneg _) (mul_self_nonneg _)) (Ne.symm hm)

/-- Prefixes preserve general position. -/
theorem GenPos_take (pts : List Pt) (n : Nat) (h : GenPos pts) :
    GenPos (pts.take n) := by
  intro k hk j hj i hi
  rw [List.length_take] at hk
  have hgd : ∀ m, m < n → (pts.take n).getD m default = pts.getD m default := by
    intro m hmn
    rw [List.getD_eq_getElem?_getD, List.getD_eq_getElem?_getD,
      List.getElem?_take_of_lt hmn]
  rw [hgd k (by omega), hgd j (by omega), hgd i (by omega)]
  exact h k (by omega) j hj i hi

/-- Suffixes preserve general position. -/
theorem GenPos_drop (pts : List Pt) (m : Nat) (h : GenPos pts) :
    GenPos (pts.drop m) := by
  intro k hk j hj i hi
  rw [List.length_drop] at hk
  have hgd : ∀ t, (pts.drop m).getD t default = pts.getD (m + t) default := by
    intro t
    rw [List.getD_eq_getElem?_getD, List.getD_eq_getElem?_getD, List.getElem?_drop]
  rw [hgd, hgd, hgd]
  exact h (m + k) (by omega) (m + j) (by omega) (m + i) (by omega)

/-- With zero tolerance, Douglas-Peucker is the identity on strokes in
general position (enough fuel given). -/
theorem dpFuel_genPos_id :
    ∀ (fuel : Nat) (pts : List Pt), GenPos pts → pts.length ≤ fuel →
      dpFuel fuel pts 0 = pts := by
  intro fuel
  induction fuel with
  | zero =>
    intro pts _ _
    rw [dpFuel]
  | succ f ih =>
    intro pts hgp hlen
    rw [dpFuel]
    dsimp only
    split_ifs with h3 hcond
    · rfl
    · push_neg at h3
      have hpos : 0 < (dpScan pts (pts.getD 0 default)
          (pts.getD (pts.length - 1) default)).2 := by
        have h00 : (0 : ℚ) * 0 = 0 := by norm_num
        rw [h00] at hcond
        exact hcond
      obtain ⟨hm1, hm2⟩ := dpScan_pos_bounds pts _ _ hpos
      rw [ih (pts.take ((dpScan pts (pts.getD 0 default)
            (pts.getD (pts.length - 1) default)).1 + 1))
          (GenPos_take pts _ hgp) (by rw [List.length_take]; omega),
        ih (pts.drop (dpScan pts (pts.getD 0 default)
            (pts.getD (pts.length - 1) default)).1)
          (GenPos_drop pts _ hgp) (by rw [List.length_drop]; omega)]
      have hdl : (pts.take ((dpScan pts (pts.getD 0 default)
          (pts.getD (pts.length - 1) default)).1 + 1)).dropLast =
          pts.take (dpScan pts (pts.getD 0 default)
            (pts.getD (pts.length - 1) default)).1 := by
        rw [List.dropLast_eq_take, List.length_take, List.take_take]
        congr 1
        omega
      rw [hdl, List.take_append_drop]
    · exfalso
      push_neg at h3
      have h1mem : 1 ∈ List.range' 1 (pts.length - 2) := by
        rw [List.mem_range'_1]
        omega
      have hd1 : 0 < calculateDistanceToLineSq (pts.getD 1 default)
          (pts.getD 0 default) (pts.getD (pts.length - 1) default) :=
        distSq_pos_of_cross_ne _ _ _
          (hgp (pts.length - 1) (by omega) 1 (by omega) 0 (by omega))
      have hge := foldMax_ge
        (fun i => calculateDistanceToLineSq (pts.getD i default)
          (pts.getD 0 default) (pts.getD (pts.length - 1) default))
        (List.range' 1 (pts.length - 2)) (0, 0) 1 h1mem
      apply hcond
      have h00 : (0 : ℚ) * 0 = 0 := by norm_num
      rw [h00]
      unfold dpScan
      exact lt_of_lt_of_le hd1 hge

/-- C5 (amended): with tolerance 0, `simplifyPath` returns the stroke
unchanged for every stroke in general position — no three points (in
order) collinear.  (The original unrestricted claim fails on collinear
strokes, which collapse to their endpoints; see the counterexample.) -/
theorem C5_simplify_zero_identity (pts : List Pt) (h : GenPos pts) :
    simplifyPath pts 0 = pts := by
  unfold simplifyPath douglasPeucker
  split_ifs with h3
  · rfl
  · exact dpFuel_genPos_id pts.length pts h le_rfl

/-- C5 counterexample: three collinear points are collapsed by
`simplifyPath` with tolerance 0 to the two endpoints, so the output is not
the input. -/
theorem C5_simplify_zero_counterexample :
    simplifyPath [(⟨0, 0⟩ : Pt), ⟨1, 0⟩, ⟨2, 0⟩] 0 = [(⟨0, 0⟩ : Pt), ⟨2, 0⟩] ∧
    simplifyPath [(⟨0, 0⟩ : Pt), ⟨1, 0⟩, ⟨2, 0⟩] 0 ≠ [(⟨0, 0⟩ : Pt), ⟨1, 0⟩, ⟨2, 0⟩] := by
  have he : simplifyPath [(⟨0, 0⟩ : Pt), ⟨1, 0⟩, ⟨2, 0⟩] 0 = [(⟨0, 0⟩ : Pt), ⟨2, 0⟩] := by
    norm_num [simplifyPath, douglasPeucker, dpFuel, dpScan, calculateDistanceToLineSq,
      List.range']
  refine ⟨he, ?_⟩
  rw [he]
  simp

/-- C5 witness: the four-point stroke `stroke2` is in general position and
is returned unchanged. -/
theorem C5_simplify_zero_identity_witness : simplifyPath stroke2 0 = stroke2 :=
  C5_simplify_zero_identity stroke2 (by
    intro k hk j hj i hi
    simp only [stroke2, List.length_cons, List.length_nil] at hk
    interval_cases k <;> interval_cases j <;> interval_cases i <;>
      norm_num [stroke2, cross, psub])

/-- Douglas-Peucker never shrinks a stroke below its two endpoints. -/
theorem dpFuel_length_ge_two :
    ∀ (fuel : Nat) (pts : List Pt) (tolerance : ℚ), 2 ≤ pts.length →
      2 ≤ (dpFuel fuel pts tolerance).length := by
  intro fuel
  induction fuel with
  | zero =>
    intro pts tolerance h
    rw [dpFuel]
    exact h
  | succ f ih =>
    intro pts tolerance h
    rw [dpFuel]
    dsimp only
    split_ifs with h3 hcond
    · exact h
    · push_neg at h3
      have hpos : 0 < (dpScan pts (pts.getD 0 default)
          (pts.getD (pts.length - 1) default)).2 :=
        lt_of_le_of_lt (mul_self_nonneg tolerance) hcond
      obtain ⟨hm1, hm2⟩ := dpScan_pos_bounds pts _ _ hpos
      rw [List.length_append]
      have hB := ih (pts.drop (dpScan pts (pts.getD 0 default)
          (pts.getD (pts.length - 1) default)).1) tolerance
        (by rw [List.length_drop]; omega)
      omega
    · simp

/-- Raising the tolerance never increases the simplified point count. -/
theorem dpFuel_mono :
    ∀ (fuel : Nat) (pts : List Pt) (t1 t2 : ℚ), 0 ≤ t1 → t1 < t2 →
      (dpFuel fuel pts t2).length ≤ (dpFuel fuel pts t1).length := by
  intro fuel
  induction fuel with
  | zero =>
    intro pts t1 t2 _ _
    rw [dpFuel, dpFuel]
  | succ f ih =>
    intro pts t1 t2 h0 h12
    rw [dpFuel, dpFuel]
    dsimp only
    split_ifs with h3 c2 c1 c1
    · exact le_rfl
    · rw [List.length_append, List.length_append, List.length_dropLast,
        List.length_dropLast]
      have hA := ih (pts.take ((dpScan pts (pts.getD 0 default)
          (pts.getD (pts.length - 1) default)).1 + 1)) t1 t2 h0 h12
      have hB := ih (pts.drop (dpScan pts (pts.getD 0 default)
          (pts.getD (pts.length - 1) default)).1) t1 t2 h0 h12
      omega
    · exact absurd (lt_of_le_of_lt
        (mul_self_le_mul_self h0 (le_of_lt h12)) c2) c1
    · push_neg at h3
      have hpos : 0 < (dpScan pts (pts.getD 0 default)
          (pts.getD (pts.length - 1) default)).2 :=
        lt_of_le_of_lt (mul_self_nonneg t1) c1
      obtain ⟨hm1, hm2⟩ := dpScan_pos_bounds pts _ _ hpos
      rw [List.length_append]
      have hB := dpFuel_length_ge_two f (pts.drop (dpScan pts (pts.getD 0 default)
          (pts.getD (pts.length - 1) default)).1) t1
        (by rw [List.length_drop]; omega)
      simp only [List.length_cons, List.length_nil]
      omega
    · exact le_rfl

/-- C6: for tolerances `0 ≤ ε₁ < ε₂` (the simplifier's tolerance domain is
non-negative), the simplified output at the larger tolerance has no more
points than at the smaller tolerance. -/
theorem C6_simplify_monotone (pts : List Pt) (t1 t2 : ℚ)
    (h0 : 0 ≤ t1) (h12 : t1 < t2) :
    (simplifyPath pts t2).length ≤ (simplifyPath pts t1).length := by
  unfold simplifyPath douglasPeucker
  split_ifs with h3
  · exact le_rfl
  · exact dpFuel_mono pts.length pts t1 t2 h0 h12

/-- C6 witness: instantiating at the collinear three-point stroke with
tolerances `0 < 1`. -/
theorem C6_simplify_monotone_witness :
    (simplifyPath [(⟨0, 0⟩ : Pt), ⟨1, 0⟩, ⟨2, 0⟩] 1).length ≤
      (simplifyPath [(⟨0, 0⟩ : Pt), ⟨1, 0⟩, ⟨2, 0⟩] 0).length :=
  C6_simplify_monotone [⟨0, 0⟩, ⟨1, 0⟩, ⟨2, 0⟩] 0 1 (by norm_num) (by norm_num)

end FontCreator
